import Mathlib

/-!
Shallow embedding of the doorbell ring-cycle detector of
`src/lib/door_bell_detectors.py` together with the parts of the audio layer
(`src/lib/audio.py`) that its resource handling and its confidence loop rely
on.

Conventions of the embedding:
* Python floats are modeled as exact rationals (`ℚ`).  Every comparison the
  program performs on the inputs considered here is decided with a margin
  many orders of magnitude above double-precision rounding error, so rational
  arithmetic is a faithful model of the float computation.
* Wall-clock time (`time.time()`) is modeled by a function `clock : ℕ → ℚ`
  returning the time observed once a given number of confidence samples has
  been consumed; the detection loop is pull-based and samples the clock at
  most once per consumed confidence.
* The confidence source is modeled as a `List ℚ` with a cursor `pos : ℕ`:
  `AiPhoneGT1A._iter_confidences` pulls exactly one confidence per audio
  block, and the pitch pipeline is the detector's external collaborator.
  The stream is depleted exactly when the cursor has passed the end.
* Fallible Python operations return `Except PyErr`.
-/

attribute [local semireducible] Rat.mul Rat.add Rat.inv Rat.sub

set_option maxRecDepth 100000

/-- Python exceptions that the modeled code can raise. -/
inductive PyErr where
  | typeErrorNotCallable
  | typeErrorExitArity
  | attributeErrorNoAttr
  | zeroDivisionError
  | valueErrorNegativeMaxlen
deriving DecidableEq

/-- The three ways a phase-detection loop can exit: the `break` with
`ret = True` (membership matched), the `break` with `ret = False` (deadline
reached), and the `for`-`else` branch (the confidence iterator is
exhausted). -/
inductive PhaseOutcome where
  | Matched
  | TimedOut
  | StreamEnded
deriving DecidableEq

/-- Python `int()` applied to a real value: truncation toward zero.  On the
normalized fraction `num / den` (with `den > 0`) this is the
toward-zero integer division of the numerator by the denominator. -/
def pyInt (q : ℚ) : ℤ := q.num.tdiv q.den

deriving instance DecidableEq for Except

/-- One `append` on a `collections.deque` created with `maxlen = n`:
with `maxlen = 0` appends are dropped and the deque stays as it is, a
non-full deque grows by the new value, and a full deque evicts its oldest
(leftmost) element first. -/
def dequePush (n : ℕ) (dq : List ℚ) (x : ℚ) : List ℚ :=
  if n = 0 then dq
  else if dq.length < n then dq ++ [x]
  else dq.tail ++ [x]

/-- The Python condition `max_wait_time and (time.time() >= max_wait_time)`
(door_bell_detectors.py lines 207 and 264): `None` and the float `0.0` are
falsy, so the clock comparison runs only for a set, non-zero deadline. -/
def timeoutCheck (maxWaitTime : Option ℚ) (now : ℚ) : Bool :=
  match maxWaitTime with
  | none => false
  | some t => decide (t ≠ 0) && decide (t ≤ now)

/-- The detector configuration assembled by `AiPhoneGT1A.__init__`
(door_bell_detectors.py lines 50-107), with its default keyword values.
`__init__` only stores the parameters (and wraps the stream in a `Pitch`);
it performs no validation of any of them. -/
structure AiPhoneGT1A where
  min_ringing_confidence : ℚ := 9/20
  max_ringing_confidence : ℚ := 3/4
  pitch_confidences_per_second : ℚ := 86
  ringing_seconds : ℚ := 9/5
  gap_seconds : ℚ := 9/5
  max_wait_gap_multiple : ℚ := 2
  max_wait_subsequent_ring_multiple : ℚ := 2
deriving DecidableEq

/-- `num_confidences_to_average = int(rate * seconds)` - the window size
used by both phase detectors (door_bell_detectors.py lines 190 and 248).
Note the Python code truncates with `int()`, it does not `round()`. -/
def numConfidencesToAverage (rate seconds : ℚ) : ℤ := pyInt (rate * seconds)

/-- The `for pitch_confidence in self._iter_confidences():` loop shared by
`AiPhoneGT1A._detect_single_ring` (door_bell_detectors.py lines 196-219) and
`AiPhoneGT1A._detect_single_gap` (lines 254-276); the two loops are textually
identical except for the polarity of the band-membership test on the new
running mean, the parameter `inside` below (`true` for the ring phases,
`false` negating the test for the gap phase).  `l` is the not-yet-consumed
part of the confidence source, `pos` the number of confidences consumed so
far (also the clock index), `dq` the deque and `n` the divisor
`num_confidences_to_average`.  The `for`-`else` branch on iterator
exhaustion yields `StreamEnded`; `sum(dq) / 0` raises Python's
`ZeroDivisionError` when the window size is zero. -/
def detectLoop (clock : ℕ → ℚ) (minC maxC : ℚ) (inside : Bool) (n : ℤ)
    (maxWaitTime : Option ℚ) : List ℚ → List ℚ → ℕ → Except PyErr (PhaseOutcome × ℕ)
  | [], _, pos => .ok (.StreamEnded, pos)
  | x :: rest, dq, pos =>
    let dq2 := dequePush n.toNat dq x
    if n = 0 then .error .zeroDivisionError
    else if decide (minC ≤ dq2.sum / (n : ℚ) ∧ dq2.sum / (n : ℚ) ≤ maxC) = inside then
      .ok (.Matched, pos + 1)
    else if timeoutCheck maxWaitTime (clock (pos + 1)) then
      .ok (.TimedOut, pos + 1)
    else
      detectLoop clock minC maxC inside n maxWaitTime rest dq2 (pos + 1)

/-- `AiPhoneGT1A._detect_single_ring` (door_bell_detectors.py lines 170-224):
deadline `time.time() + ringing_seconds * max_wait_seconds_multiple` fixed
before any sample is consumed (or no deadline when the multiple is `None`),
window of `int(pitch_confidences_per_second * ringing_seconds)` slots seeded
with `0`, membership polarity Inside.  A negative deque `maxlen` raises
`ValueError` at the deque construction. -/
def AiPhoneGT1A.detect_single_ring (d : AiPhoneGT1A) (clock : ℕ → ℚ) (source : List ℚ)
    (pos : ℕ) (maxWaitMult : Option ℚ) : Except PyErr (PhaseOutcome × ℕ) :=
  let maxWaitTime := maxWaitMult.map fun m => clock pos + d.ringing_seconds * m
  let n := numConfidencesToAverage d.pitch_confidences_per_second d.ringing_seconds
  if n < 0 then .error .valueErrorNegativeMaxlen
  else
    detectLoop clock d.min_ringing_confidence d.max_ringing_confidence true n maxWaitTime
      (source.drop pos) (List.replicate n.toNat 0) pos

/-- `AiPhoneGT1A._detect_single_gap` (door_bell_detectors.py lines 226-281):
deadline `time.time() + gap_seconds * max_wait_seconds_multiple` fixed before
any sample is consumed (or no deadline when the multiple is `None`), window
of `int(pitch_confidences_per_second * gap_seconds)` slots each seeded with
`average_ring_confidence = (min_ringing_confidence + max_ringing_confidence) / 2`,
membership polarity Outside (the test on the mean is negated). -/
def AiPhoneGT1A.detect_single_gap (d : AiPhoneGT1A) (clock : ℕ → ℚ) (source : List ℚ)
    (pos : ℕ) (maxWaitMult : Option ℚ) : Except PyErr (PhaseOutcome × ℕ) :=
  let maxWaitTime := maxWaitMult.map fun m => clock pos + d.gap_seconds * m
  let seed := (d.min_ringing_confidence + d.max_ringing_confidence) / 2
  let n := numConfidencesToAverage d.pitch_confidences_per_second d.gap_seconds
  if n < 0 then .error .valueErrorNegativeMaxlen
  else
    detectLoop clock d.min_ringing_confidence d.max_ringing_confidence false n maxWaitTime
      (source.drop pos) (List.replicate n.toNat seed) pos

/-- `AiPhoneGT1A._is_ringing` (door_bell_detectors.py lines 152-163): one
cycle attempt `_detect_single_ring() and _detect_single_gap(...) and
_detect_single_ring(...)` with short-circuiting `and`, returning the boolean
outcome together with the advanced cursor.  The first ring runs with no
deadline; the gap and the subsequent ring use the two configured deadline
multiples. -/
def AiPhoneGT1A.is_ringing_once (d : AiPhoneGT1A) (clock : ℕ → ℚ) (source : List ℚ)
    (pos : ℕ) : Except PyErr (Bool × ℕ) := do
  let r1 ← d.detect_single_ring clock source pos none
  if r1.1 = .Matched then
    let r2 ← d.detect_single_gap clock source r1.2 (some d.max_wait_gap_multiple)
    if r2.1 = .Matched then
      let r3 ← d.detect_single_ring clock source r2.2 (some d.max_wait_subsequent_ring_multiple)
      pure (decide (r3.1 = .Matched), r3.2)
    else pure (false, r2.2)
  else pure (false, r1.2)

/-- The `while not self.audio_stream.is_depleted:` loop of
`AiPhoneGT1A.is_ringing` (door_bell_detectors.py lines 144-150), with the
depletion test `pos < source.length` of the abstract confidence source.
`fuel` bounds the number of outer-loop iterations; every iteration started
on a non-depleted source strictly advances the cursor (lemma
`is_ringing_once_lt` below), so `source.length` iterations always suffice
and the fuel-exhausted branch can only be reached with a depleted source,
where the Python loop guard stops and the method returns `False` as well
(lemma `is_ringing_fuel_congr`). -/
def AiPhoneGT1A.is_ringing_fuel (d : AiPhoneGT1A) (clock : ℕ → ℚ) (source : List ℚ) :
    ℕ → ℕ → Except PyErr Bool
  | 0, _ => .ok false
  | fuel + 1, pos =>
    if pos < source.length then
      match d.is_ringing_once clock source pos with
      | .error e => .error e
      | .ok (true, _) => .ok true
      | .ok (false, p) => d.is_ringing_fuel clock source fuel p
    else .ok false

/-- Detection core of `AiPhoneGT1A.is_ringing` (door_bell_detectors.py lines
139-150): repeat cycle attempts while the source is not depleted, return
`True` on the first successful attempt and `False` once the source is
depleted.  The stream/pitch resource lifecycle of the method is modeled
separately (`is_ringing_asWritten` below). -/
def AiPhoneGT1A.is_ringing (d : AiPhoneGT1A) (clock : ℕ → ℚ) (source : List ℚ) :
    Except PyErr Bool :=
  d.is_ringing_fuel clock source source.length 0

/-- The constant clock: a run during which the wall clock makes no observable
progress (so no set deadline with a positive duration can expire). -/
def clock0 : ℕ → ℚ := fun _ => 0

/-- The cursor position at which the last recorded attempt stopped. -/
def chainEnd : ℕ → List (ℕ × ℕ) → ℕ
  | p, [] => p
  | _, se :: rest => chainEnd se.2 rest

/-!
### A run-length-encoded window state

`detectLoop` is the faithful translation of the source's deque loop; for
concrete end-to-end runs its window term (hundreds of rationals, rebuilt on
every push) makes kernel evaluation needlessly expensive.  The evaluator
below keeps the window run-length encoded - provably equal to `detectLoop`
(`detectLoop_eq_rle`), and with a tiny state on the streams of interest.
-/

/-- Decode a run-length-encoded window: the pair `(c, v)` stands for `c`
consecutive copies of `v`, oldest runs first. -/
def rleToList (r : List (ℕ × ℚ)) : List ℚ :=
  (r.map fun cv => List.replicate cv.1 cv.2).flatten

/-- Well-formedness: every run count is positive. -/
def rleWF (r : List (ℕ × ℚ)) : Prop := ∀ cv ∈ r, 0 < cv.1

/-- Append one value at the newest end, merging with the newest run when the
values agree. -/
def rlePush : List (ℕ × ℚ) → ℚ → List (ℕ × ℚ)
  | [], x => [(1, x)]
  | [(c, v)], x => if v = x then [(c + 1, v)] else [(c, v), (1, x)]
  | cv :: cv2 :: rest, x => cv :: rlePush (cv2 :: rest) x

/-- Drop one value at the oldest end. -/
def rleTail : List (ℕ × ℚ) → List (ℕ × ℚ)
  | [] => []
  | (c, v) :: rest => if c ≤ 1 then rest else (c - 1, v) :: rest

/-- The sum of the decoded window, one multiplication per run. -/
def rleSum : List (ℕ × ℚ) → ℚ
  | [] => 0
  | (c, v) :: rest => (c : ℚ) * v + rleSum rest

/-- The phase loop on a run-length-encoded window: same branch structure as
`detectLoop`, with the deque push replaced by drop-oldest-then-append and
the full-traversal sum by the per-run sum. -/
def detectLoopRLE (clock : ℕ → ℚ) (minC maxC : ℚ) (inside : Bool) (n : ℤ)
    (maxWaitTime : Option ℚ) : List ℚ → List (ℕ × ℚ) → ℕ → Except PyErr (PhaseOutcome × ℕ)
  | [], _, pos => .ok (.StreamEnded, pos)
  | x :: rest, r, pos =>
    let r2 := rlePush (rleTail r) x
    if n = 0 then .error .zeroDivisionError
    else if decide (minC ≤ rleSum r2 / (n : ℚ) ∧ rleSum r2 / (n : ℚ) ≤ maxC) = inside then
      .ok (.Matched, pos + 1)
    else if timeoutCheck maxWaitTime (clock (pos + 1)) then
      .ok (.TimedOut, pos + 1)
    else
      detectLoopRLE clock minC maxC inside n maxWaitTime rest r2 (pos + 1)

/-- The end-to-end test stream of claim C1: 155 confidences at 0.60, then
155 at 0.10, then 155 at 0.60. -/
def c1Source : List ℚ :=
  List.replicate 155 (6/10) ++ List.replicate 155 (1/10) ++ List.replicate 155 (6/10)

/-!
### The audio layer exactly as written

`AiPhoneGT1A.is_ringing` above models the detection algorithm with the
confidence pipeline abstracted into a value source.  The definitions below
model the pipeline itself exactly as `src/lib/audio.py` writes it, which is
what an actual call of `is_ringing()` executes.
-/

/-- A Python runtime value, as far as the modeled expressions need. -/
inductive PyVal where
  | pybool (b : Bool)
  | pymethod
  | pyfloat (q : ℚ)
  | pynone
deriving DecidableEq

/-- Calling a Python value with no arguments: methods are callable, while
calling a `bool` (or any other non-callable) raises
`TypeError: object is not callable`. -/
def pyCallNoArgs : PyVal → Except PyErr PyVal
  | .pymethod => .ok .pynone
  | _ => .error .typeErrorNotCallable

/-- The value of the expression `self.is_depleted` on a stream whose
`_is_depleted()` currently returns `depleted`: `is_depleted` is a
`@property` (audio.py lines 92-94), so the attribute access itself runs the
getter and yields a plain boolean, not a bound method. -/
def AudioStream.is_depleted_value (depleted : Bool) : PyVal := .pybool depleted

/-- The first action of the generator `Stream.iter_read` (audio.py lines
105-109): the loop guard is written `if self.is_depleted():`, i.e. it reads
the property and then attempts to call the resulting boolean. -/
def AudioStream.iter_read_first (depleted : Bool) : Except PyErr PyVal :=
  pyCallNoArgs (AudioStream.is_depleted_value depleted)

/-- The attributes of `Pitch` objects (audio.py lines 189-238): the methods
defined by `class Pitch` and the instance attributes assigned in
`Pitch.__init__`.  The class defines `fetch_confidence`; there is no
attribute named `confidence`. -/
def pitchAttributes : List String :=
  ["audio_stream", "model", "tolerance", "block_size_multiple",
   "_aubio_pitch", "_cached_confidence",
   "__init__", "__enter__", "__exit__",
   "open", "close", "process_data", "fetch_confidence"]

/-- Python attribute lookup on a `Pitch` object.  (Returning `pymethod` also
for the data attributes is a simplification that the modeled code never
exercises: the only names it looks up are `process_data` - a method - and
`confidence` - missing.) -/
def pitchGetAttr (name : String) : Except PyErr PyVal :=
  if name ∈ pitchAttributes then .ok .pymethod else .error .attributeErrorNoAttr

/-- The first iteration of `AiPhoneGT1A._iter_confidences`
(door_bell_detectors.py lines 165-168) on a stream with depletion state
`depleted`: pull the first block from `audio_stream.iter_read()`, call
`audio_pitch.process_data()`, then read the attribute
`audio_pitch.confidence` and yield it.  The final arm converting the
attribute to a float is unreachable: the lookup of `confidence` fails, and
before it even the very first pull raises (lemma
`iterConfidencesFirst_raises` below). -/
def iterConfidencesFirst (depleted : Bool) : Except PyErr ℚ := do
  let _ ← AudioStream.iter_read_first depleted
  let m ← pitchGetAttr "process_data"
  let _ ← pyCallNoArgs m
  let c ← pitchGetAttr "confidence"
  match c with
  | .pyfloat q => pure q
  | _ => .error .typeErrorNotCallable

/-- `AiPhoneGT1A._detect_single_ring` as written, on a stream with depletion
state `depleted`: its `for` loop first pulls from `_iter_confidences()`,
which raises before yielding any value, so the loop body is never entered
(the `.ok` arm is unreachable by lemma `iterConfidencesFirst_raises`). -/
def detect_single_ring_asWritten (depleted : Bool) : Except PyErr Bool :=
  match iterConfidencesFirst depleted with
  | .error e => .error e
  | .ok _ => .ok false

/-- `AiPhoneGT1A._is_ringing` as written: the short-circuiting `and` starts
with `self._detect_single_ring()`, which raises, so the gap phase and the
subsequent ring phase are never evaluated. -/
def is_ringing_once_asWritten (depleted : Bool) : Except PyErr Bool :=
  detect_single_ring_asWritten depleted

/-- The `while not self.audio_stream.is_depleted:` loop of
`AiPhoneGT1A.is_ringing` as written: skipped when the stream is already
depleted (leading to the `return False` after the `with` blocks), otherwise
the first cycle attempt raises.  The `.ok false` arm (a further loop
iteration repeating the identical raising attempt) is unreachable by lemma
`iterConfidencesFirst_raises`. -/
def is_ringing_while_asWritten (depleted : Bool) : Except PyErr Bool :=
  if depleted then .ok false
  else
    match is_ringing_once_asWritten depleted with
    | .error e => .error e
    | .ok b => .ok b

/-- Open/closed state of the two scoped resources of `is_ringing()`. -/
structure Resources where
  streamOpen : Bool
  pitchOpen : Bool
deriving DecidableEq

/-- Python's `with` statement invokes
`type(mgr).__exit__(mgr, exc_type, exc_value, traceback)`:
four arguments including the receiver. -/
def withExitArgCount : ℕ := 4

/-- `Stream.__exit__` is declared `def __exit__(self)` (audio.py lines
39-40): a single parameter. -/
def streamExitParamCount : ℕ := 1

/-- `Pitch.__exit__` is declared `def __exit__(self)` (audio.py lines
224-225): a single parameter. -/
def pitchExitParamCount : ℕ := 1

/-- Invoking a `__exit__` declared with `params` parameters: when the
parameter list cannot accommodate the four-argument call of the `with`
protocol, Python raises `TypeError` at the call itself, before the method
body - and hence the `close()` inside it - can run, leaving the resource
state unchanged. -/
def callDunderExit (params : ℕ) (close : Resources → Resources) (r : Resources) :
    Except PyErr Unit × Resources :=
  if params = withExitArgCount then (.ok (), close r)
  else (.error .typeErrorExitArity, r)

/-- A Python `with` block: run `__enter__`, then the body, then `__exit__`
(also when the body raised).  An exception raised by `__exit__` replaces the
body's outcome, whether that was a normal value or an exception already in
flight; if `__exit__` returns normally (the methods here return `None`,
which does not suppress), the body's outcome stands. -/
def withBlock (enter : Resources → Resources) (exitParams : ℕ)
    (close : Resources → Resources) (body : Resources → Except PyErr Bool × Resources)
    (r : Resources) : Except PyErr Bool × Resources :=
  let r1 := enter r
  let res := body r1
  let ex := callDunderExit exitParams close res.2
  match ex.1 with
  | .error e => (.error e, ex.2)
  | .ok _ => (res.1, ex.2)

/-- `AiPhoneGT1A.is_ringing` (door_bell_detectors.py lines 139-150) exactly
as written: `with self.audio_stream:` around `with self.audio_pitch:` around
the detection loop, followed by `return False` after the blocks.
`Stream.__enter__` and `Pitch.__enter__` call the assertion-guarded `open()`
methods, which succeed from the closed starting state and mark the resource
open. -/
def is_ringing_asWritten (depleted : Bool) : Except PyErr Bool × Resources :=
  withBlock (fun r => { r with streamOpen := true }) streamExitParamCount
    (fun r => { r with streamOpen := false })
    (fun r =>
      withBlock (fun r2 => { r2 with pitchOpen := true }) pitchExitParamCount
        (fun r2 => { r2 with pitchOpen := false })
        (fun r2 => (is_ringing_while_asWritten depleted, r2)) r)
    { streamOpen := false, pitchOpen := false }

/-!
### Instrumentation for the consumption claims
-/

/-- Instrumented variant of `is_ringing_fuel` that also records, for every
cycle attempt that completed without raising, the cursor interval
`(start, stop)` of the confidences this attempt consumed. -/
def AiPhoneGT1A.is_ringing_trace (d : AiPhoneGT1A) (clock : ℕ → ℚ) (source : List ℚ) :
    ℕ → ℕ → Except PyErr Bool × List (ℕ × ℕ)
  | 0, _ => (.ok false, [])
  | fuel + 1, pos =>
    if pos < source.length then
      match d.is_ringing_once clock source pos with
      | .error e => (.error e, [])
      | .ok (true, p) => (.ok true, [(pos, p)])
      | .ok (false, p) =>
        let rest := d.is_ringing_trace clock source fuel p
        (rest.1, (pos, p) :: rest.2)
    else (.ok false, [])

/-- Contiguity of a list of cycle-attempt intervals: every attempt starts
exactly where the previous one stopped (the source is never rewound), every
interval runs forward, and no attempt reads past the end of the source. -/
def attemptChain (len : ℕ) : ℕ → List (ℕ × ℕ) → Prop
  | _, [] => True
  | p, se :: rest => se.1 = p ∧ se.1 ≤ se.2 ∧ se.2 ≤ len ∧ attemptChain len se.2 rest

/-- The indices of all confidence samples consumed by the recorded cycle
attempts, in consumption order. -/
def consumedIndices (tr : List (ℕ × ℕ)) : List ℕ :=
  (tr.map fun se => List.range' se.1 (se.2 - se.1)).flatten

/-!
### The sliding-window mean, recomputed and incremental
-/

/-- The running-mean sequence as the source computes it: each push appends to
the deque (evicting the oldest element when full) and recomputes `sum(dq)`
by a full traversal before dividing (door_bell_detectors.py lines 197-198
and 255-256). -/
def windowMeansGo (n : ℕ) : List ℚ → List ℚ → List ℚ
  | _, [] => []
  | dq, x :: rest =>
    let dq2 := dequePush n dq x
    dq2.sum / (n : ℚ) :: windowMeansGo n dq2 rest

/-- The mean sequence over a window of capacity `n` seeded with `n` copies of
`seed`, recomputing the sum on every push, as the source does. -/
def windowMeans (n : ℕ) (seed : ℚ) (xs : List ℚ) : List ℚ :=
  windowMeansGo n (List.replicate n seed) xs

/-- Modelled from the spec: the incrementally-updated running sum the spec
asks implementations to maintain - on each push add the pushed value and
subtract the evicted one, keeping the window contents only to know which
element falls out; no full-sum recomputation ever happens. -/
def windowMeansIncGo (n : ℕ) : List ℚ → ℚ → List ℚ → List ℚ
  | _, _, [] => []
  | dq, s, x :: rest =>
    let full := n ≤ dq.length
    let s2 := s + x - (if full then dq.headD 0 else 0)
    let dq2 := (if full then dq.tail else dq) ++ [x]
    s2 / (n : ℚ) :: windowMeansIncGo n dq2 s2 rest

/-- Modelled from the spec: the mean sequence over a window of capacity `n`
seeded with `n` copies of `seed`, maintained with the incremental running
sum (which starts as `n * seed`, the sum of the seeds). -/
def windowMeansInc (n : ℕ) (seed : ℚ) (xs : List ℚ) : List ℚ :=
  windowMeansIncGo n (List.replicate n seed) ((n : ℚ) * seed) xs

/-!
### Helper lemmas
-/

/-- The very first pull of `_iter_confidences` raises: `iter_read` calls the
boolean value of the `is_depleted` property, whatever the depletion state. -/
theorem iterConfidencesFirst_raises (depleted : Bool) :
    iterConfidencesFirst depleted = .error .typeErrorNotCallable := rfl

/-- `Pitch` objects have no attribute `confidence`. -/
theorem pitchGetAttr_confidence :
    pitchGetAttr "confidence" = .error .attributeErrorNoAttr := by decide

/-- The window size both phases derive from the default configuration. -/
theorem numConf_default : numConfidencesToAverage 86 (9/5) = 154 := by decide

/-- Cursor bounds for the shared phase loop: a normally completed phase never
moves the cursor backwards, consumes at most the remaining samples, consumes
all of them exactly on the stream-ended outcome, and consumes at least one
sample when any remain. -/
theorem detectLoop_bounds (clock : ℕ → ℚ) (minC maxC : ℚ) (inside : Bool) (n : ℤ)
    (mwt : Option ℚ) :
    ∀ (l dq : List ℚ) (pos : ℕ) (o : PhaseOutcome) (p : ℕ),
      detectLoop clock minC maxC inside n mwt l dq pos = .ok (o, p) →
      pos ≤ p ∧ p ≤ pos + l.length ∧ (o = .StreamEnded → p = pos + l.length) ∧
        (l ≠ [] → pos < p) := by
  intro l
  induction l with
  | nil =>
    intro dq pos o p h
    simp only [detectLoop, Except.ok.injEq, Prod.mk.injEq] at h
    obtain ⟨h1, h2⟩ := h
    simp [← h1, ← h2]
  | cons x rest ih =>
    intro dq pos o p h
    rw [detectLoop] at h
    split at h
    · exact absurd h (by simp)
    · split at h
      · simp only [Except.ok.injEq, Prod.mk.injEq] at h
        obtain ⟨h1, h2⟩ := h
        subst h1 h2
        refine ⟨by omega, by simp only [List.length_cons]; omega, ?_, fun _ => by omega⟩
        intro hco
        exact absurd hco (by simp)
      · split at h
        · simp only [Except.ok.injEq, Prod.mk.injEq] at h
          obtain ⟨h1, h2⟩ := h
          subst h1 h2
          refine ⟨by omega, by simp only [List.length_cons]; omega, ?_, fun _ => by omega⟩
          intro hco
          exact absurd hco (by simp)
        · obtain ⟨h1, h2, h3, _⟩ := ih _ _ _ _ h
          refine ⟨by omega, by simp only [List.length_cons]; omega, ?_, fun _ => by omega⟩
          intro hco
          have := h3 hco
          simp only [List.length_cons]
          omega

/-- A phase run without a deadline can never report the timed-out outcome. -/
theorem detectLoop_none_ne_timedOut (clock : ℕ → ℚ) (minC maxC : ℚ) (inside : Bool)
    (n : ℤ) :
    ∀ (l dq : List ℚ) (pos : ℕ) (p : ℕ),
      detectLoop clock minC maxC inside n none l dq pos ≠ .ok (.TimedOut, p) := by
  intro l
  induction l with
  | nil =>
    intro dq pos p h
    simp only [detectLoop, Except.ok.injEq, Prod.mk.injEq] at h
    exact absurd h.1 (by simp)
  | cons x rest ih =>
    intro dq pos p h
    rw [detectLoop] at h
    split at h
    · exact absurd h (by simp)
    · split at h
      · simp only [Except.ok.injEq, Prod.mk.injEq] at h
        exact absurd h.1 (by simp)
      · split at h
        · rename_i htc
          simp [timeoutCheck] at htc
        · exact ih _ _ _ h

/-- With an inverted band (`max < min`) an Inside-polarity phase can never
match; run with no deadline it consumes the whole remainder of the source
and reports stream end. -/
theorem detectLoop_emptyBand (clock : ℕ → ℚ) (minC maxC : ℚ) (n : ℤ)
    (hn : n ≠ 0) (hband : maxC < minC) :
    ∀ (l dq : List ℚ) (pos : ℕ),
      detectLoop clock minC maxC true n none l dq pos =
        .ok (.StreamEnded, pos + l.length) := by
  intro l
  induction l with
  | nil => intro dq pos; simp [detectLoop]
  | cons x rest ih =>
    intro dq pos
    have hmem : decide (minC ≤ (dequePush n.toNat dq x).sum / (n : ℚ) ∧
        (dequePush n.toNat dq x).sum / (n : ℚ) ≤ maxC) = false := by
      simp only [decide_eq_false_iff_not]
      rintro ⟨h1, h2⟩
      exact absurd (le_trans h1 h2) (not_le.mpr hband)
    rw [detectLoop]
    simp only [if_neg hn, hmem, Bool.false_eq_true, if_false, timeoutCheck, ih]
    simp only [List.length_cons]
    congr 2
    omega

/-- `_detect_single_ring` bounds: the cursor never moves backwards, stays
within the source, and strictly advances when the source is not depleted. -/
theorem detect_single_ring_bounds (d : AiPhoneGT1A) (clock : ℕ → ℚ) (source : List ℚ)
    (pos : ℕ) (mw : Option ℚ) (o : PhaseOutcome) (p : ℕ)
    (h : d.detect_single_ring clock source pos mw = .ok (o, p)) :
    pos ≤ p ∧ p ≤ pos + (source.length - pos) ∧ (pos < source.length → pos < p) := by
  rw [AiPhoneGT1A.detect_single_ring] at h
  split at h
  · exact absurd h (by simp)
  · obtain ⟨h1, h2, _, h4⟩ := detectLoop_bounds _ _ _ _ _ _ _ _ _ _ _ h
    have hld : (source.drop pos).length = source.length - pos := List.length_drop _ _
    refine ⟨h1, by omega, ?_⟩
    intro hlt
    apply h4
    intro hnil
    rw [hnil] at hld
    simp at hld
    omega

/-- `_detect_single_gap` bounds, as for the ring phase. -/
theorem detect_single_gap_bounds (d : AiPhoneGT1A) (clock : ℕ → ℚ) (source : List ℚ)
    (pos : ℕ) (mw : Option ℚ) (o : PhaseOutcome) (p : ℕ)
    (h : d.detect_single_gap clock source pos mw = .ok (o, p)) :
    pos ≤ p ∧ p ≤ pos + (source.length - pos) ∧ (pos < source.length → pos < p) := by
  rw [AiPhoneGT1A.detect_single_gap] at h
  split at h
  · exact absurd h (by simp)
  · obtain ⟨h1, h2, _, h4⟩ := detectLoop_bounds _ _ _ _ _ _ _ _ _ _ _ h
    have hld : (source.drop pos).length = source.length - pos := List.length_drop _ _
    refine ⟨h1, by omega, ?_⟩
    intro hlt
    apply h4
    intro hnil
    rw [hnil] at hld
    simp at hld
    omega

/-- Cursor bounds for one full cycle attempt (`_is_ringing`): the cursor
never moves backwards, stays within the source when it started inside, and
strictly advances when the attempt starts on a non-depleted source. -/
theorem is_ringing_once_bounds (d : AiPhoneGT1A) (clock : ℕ → ℚ) (source : List ℚ)
    (pos : ℕ) (b : Bool) (p : ℕ)
    (h : d.is_ringing_once clock source pos = .ok (b, p)) :
    pos ≤ p ∧ p ≤ pos + (source.length - pos) ∧ (pos < source.length → pos < p) := by
  rw [AiPhoneGT1A.is_ringing_once] at h
  cases h1 : d.detect_single_ring clock source pos none with
  | error e => rw [h1] at h; exact absurd h (by simp [Bind.bind, Except.bind])
  | ok r1 =>
    rw [h1] at h
    obtain ⟨ha1, hb1, hc1⟩ := detect_single_ring_bounds _ _ _ _ _ _ _ h1
    simp only [Bind.bind, Except.bind] at h
    split at h
    · cases h2 : d.detect_single_gap clock source r1.2 (some d.max_wait_gap_multiple) with
      | error e => rw [h2] at h; exact absurd h (by simp)
      | ok r2 =>
        rw [h2] at h
        obtain ⟨ha2, hb2, _⟩ := detect_single_gap_bounds _ _ _ _ _ _ _ h2
        simp only [] at h
        split at h
        · cases h3 : d.detect_single_ring clock source r2.2
              (some d.max_wait_subsequent_ring_multiple) with
          | error e => rw [h3] at h; exact absurd h (by simp)
          | ok r3 =>
            rw [h3] at h
            obtain ⟨ha3, hb3, _⟩ := detect_single_ring_bounds _ _ _ _ _ _ _ h3
            simp only [pure, Except.pure, Except.ok.injEq, Prod.mk.injEq] at h
            obtain ⟨-, hp⟩ := h
            subst hp
            exact ⟨by omega, by omega, fun hlt => lt_of_lt_of_le (hc1 hlt) (by omega)⟩
        · simp only [pure, Except.pure, Except.ok.injEq, Prod.mk.injEq] at h
          obtain ⟨-, hp⟩ := h
          subst hp
          exact ⟨by omega, by omega, fun hlt => lt_of_lt_of_le (hc1 hlt) (by omega)⟩
    · simp only [pure, Except.pure, Except.ok.injEq, Prod.mk.injEq] at h
      obtain ⟨-, hp⟩ := h
      subst hp
      exact ⟨ha1, by omega, hc1⟩

/-- Sufficiency of the fuel: any two fuel values at least as large as the
number of remaining samples make `is_ringing_fuel` agree, so the choice
`source.length` in `is_ringing` is semantically inert. -/
theorem is_ringing_fuel_congr (d : AiPhoneGT1A) (clock : ℕ → ℚ) (source : List ℚ) :
    ∀ (f1 f2 pos : ℕ), source.length - pos ≤ f1 → source.length - pos ≤ f2 →
      d.is_ringing_fuel clock source f1 pos = d.is_ringing_fuel clock source f2 pos := by
  intro f1
  induction f1 with
  | zero =>
    intro f2 pos hf1 hf2
    have hpos : ¬ pos < source.length := by omega
    cases f2 with
    | zero => rfl
    | succ f2 => simp only [AiPhoneGT1A.is_ringing_fuel, if_neg hpos]
  | succ f1 ih =>
    intro f2 pos hf1 hf2
    cases f2 with
    | zero =>
      have hpos : ¬ pos < source.length := by omega
      simp only [AiPhoneGT1A.is_ringing_fuel, if_neg hpos]
    | succ f2 =>
      simp only [AiPhoneGT1A.is_ringing_fuel]
      split
      · rename_i hpos
        cases honce : d.is_ringing_once clock source pos with
        | error e => rfl
        | ok r =>
          obtain ⟨b, p⟩ := r
          cases b with
          | true => rfl
          | false =>
            obtain ⟨-, h2, h3⟩ := is_ringing_once_bounds _ _ _ _ _ _ honce
            exact ih f2 p (by omega) (by omega)
      · rfl

/-- The instrumented outer loop computes the same result as the plain one,
and its recorded attempt intervals are contiguous (each attempt starts where
the previous stopped) and in bounds. -/
theorem is_ringing_trace_spec (d : AiPhoneGT1A) (clock : ℕ → ℚ) (source : List ℚ) :
    ∀ (fuel pos : ℕ),
      (d.is_ringing_trace clock source fuel pos).1 =
        d.is_ringing_fuel clock source fuel pos ∧
      attemptChain source.length pos (d.is_ringing_trace clock source fuel pos).2 := by
  intro fuel
  induction fuel with
  | zero => intro pos; exact ⟨rfl, trivial⟩
  | succ fuel ih =>
    intro pos
    simp only [AiPhoneGT1A.is_ringing_trace, AiPhoneGT1A.is_ringing_fuel]
    split
    · rename_i hpos
      cases honce : d.is_ringing_once clock source pos with
      | error e => exact ⟨rfl, trivial⟩
      | ok r =>
        obtain ⟨b, p⟩ := r
        obtain ⟨hb1, hb2, -⟩ := is_ringing_once_bounds _ _ _ _ _ _ honce
        cases b with
        | true =>
          refine ⟨rfl, ?_, by omega, by omega, trivial⟩
          rfl
        | false =>
          obtain ⟨iha, ihb⟩ := ih p
          refine ⟨iha, ?_, by omega, by omega, ihb⟩
          rfl
    · exact ⟨rfl, trivial⟩

theorem chainEnd_ge (len : ℕ) :
    ∀ (tr : List (ℕ × ℕ)) (p : ℕ), attemptChain len p tr → p ≤ chainEnd p tr := by
  intro tr
  induction tr with
  | nil => intro p _; exact le_refl _
  | cons se rest ih =>
    intro p h
    obtain ⟨h1, h2, h3, h4⟩ := h
    calc p = se.1 := h1.symm
    _ ≤ se.2 := h2
    _ ≤ chainEnd se.2 rest := ih se.2 h4

/-- A contiguous attempt chain consumes exactly the contiguous index range
from its start to its last stop - in particular every sample index at most
once. -/
theorem consumedIndices_eq_range (len : ℕ) :
    ∀ (tr : List (ℕ × ℕ)) (p : ℕ), attemptChain len p tr →
      consumedIndices tr = List.range' p (chainEnd p tr - p) := by
  intro tr
  induction tr with
  | nil => intro p _; simp [consumedIndices, chainEnd]
  | cons se rest ih =>
    intro p h
    obtain ⟨h1, h2, h3, h4⟩ := h
    have hrec := ih se.2 h4
    have hce := chainEnd_ge len rest se.2 h4
    simp only [consumedIndices, List.map_cons, List.flatten_cons] at *
    rw [hrec, chainEnd]
    subst h1
    have happ := List.range'_append se.1 (se.2 - se.1) (chainEnd se.2 rest - se.2) 1
    simp only [one_mul, mul_one] at happ
    have heq : se.1 + (se.2 - se.1) = se.2 := by omega
    rw [heq] at happ
    rw [happ]
    congr 1
    omega

theorem consumedIndices_nodup (len p : ℕ) (tr : List (ℕ × ℕ))
    (h : attemptChain len p tr) : (consumedIndices tr).Nodup := by
  rw [consumedIndices_eq_range len tr p h]
  exact List.nodup_range' _ _

/-- Invariant step for the window equivalence: as long as the window holds
exactly `n ≥ 1` elements and the running sum equals the window's sum, the
recomputing loop and the incremental loop produce the same mean sequence. -/
theorem windowMeansGo_eq_inc (n : ℕ) (hn : n ≠ 0) :
    ∀ (xs dq : List ℚ), dq.length = n →
      windowMeansGo n dq xs = windowMeansIncGo n dq dq.sum xs := by
  intro xs
  induction xs with
  | nil => intro dq _; rfl
  | cons x rest ih =>
    intro dq hlen
    cases dq with
    | nil => exact absurd hlen.symm hn
    | cons h t =>
      have hfull : n ≤ (h :: t).length := le_of_eq hlen.symm
      have hpush : dequePush n (h :: t) x = t ++ [x] := by
        rw [dequePush, if_neg hn, if_neg (by omega)]
        rfl
      have hsum : (t ++ [x]).sum = (h :: t).sum + x - (h :: t).headD 0 := by
        simp [List.sum_append, List.sum_cons]
        ring
      simp only [windowMeansGo, windowMeansIncGo, if_pos hfull, List.tail_cons]
      have hlen2 : (t ++ [x]).length = n := by
        simp only [List.length_append, List.length_cons, List.length_nil]
        simp only [List.length_cons] at hlen
        omega
      rw [hpush, ← hsum, ih (t ++ [x]) hlen2]

/-- `_detect_single_ring` with an inverted band (`max < min`) and a positive
window, run with no deadline: the Inside test can never match, so the phase
consumes the whole remainder of the source and reports stream end. -/
theorem detect_single_ring_emptyBand (d : AiPhoneGT1A) (clock : ℕ → ℚ) (source : List ℚ)
    (pos : ℕ)
    (hband : d.max_ringing_confidence < d.min_ringing_confidence)
    (hn : 0 < numConfidencesToAverage d.pitch_confidences_per_second d.ringing_seconds) :
    d.detect_single_ring clock source pos none =
      .ok (.StreamEnded, pos + (source.drop pos).length) := by
  rw [AiPhoneGT1A.detect_single_ring]
  rw [if_neg (by omega)]
  exact detectLoop_emptyBand _ _ _ _ (by omega) hband _ _ _

/-- With an inverted band the whole outer loop of `is_ringing` runs to
stream exhaustion and returns `False`, for any fuel. -/
theorem is_ringing_fuel_emptyBand (d : AiPhoneGT1A) (clock : ℕ → ℚ) (source : List ℚ)
    (hband : d.max_ringing_confidence < d.min_ringing_confidence)
    (hn : 0 < numConfidencesToAverage d.pitch_confidences_per_second d.ringing_seconds) :
    ∀ (fuel pos : ℕ), d.is_ringing_fuel clock source fuel pos = .ok false := by
  intro fuel
  induction fuel with
  | zero => intro pos; rfl
  | succ fuel ih =>
    intro pos
    simp only [AiPhoneGT1A.is_ringing_fuel]
    split
    · have honce : d.is_ringing_once clock source pos =
          .ok (false, pos + (source.drop pos).length) := by
        rw [AiPhoneGT1A.is_ringing_once,
          detect_single_ring_emptyBand d clock source pos hband hn]
        rfl
      rw [honce]
      exact ih _
    · rfl

/-- Sequencing a successful `Except` computation: definitional, stated so
that concrete runs can be rewritten without evaluating later stages. -/
theorem exceptBind_ok {α β : Type} (a : α) (f : α → Except PyErr β) :
    (Except.ok a : Except PyErr α) >>= f = f a := rfl

/-- One unfolding of the outer `while` loop on a non-depleted source whose
cycle attempt completed with outcome `b`: stated so that a concrete run can
be stepped by rewriting, without unrolling the fuel numeral. -/
theorem is_ringing_fuel_step (d : AiPhoneGT1A) (clock : ℕ → ℚ) (source : List ℚ)
    (fuel pos : ℕ) (hpos : pos < source.length) (b : Bool) (p : ℕ)
    (honce : d.is_ringing_once clock source pos = .ok (b, p)) :
    d.is_ringing_fuel clock source (fuel + 1) pos =
      if b then .ok true else d.is_ringing_fuel clock source fuel p := by
  simp only [AiPhoneGT1A.is_ringing_fuel]
  rw [if_pos hpos, honce]
  cases b with
  | true => rfl
  | false => rfl

theorem rleToList_push : ∀ (r : List (ℕ × ℚ)) (x : ℚ),
    rleToList (rlePush r x) = rleToList r ++ [x] := by
  intro r
  induction r with
  | nil => intro x; simp [rlePush, rleToList]
  | cons cv rest ih =>
    intro x
    cases rest with
    | nil =>
      obtain ⟨c, v⟩ := cv
      by_cases hv : v = x
      · subst hv
        simp [rlePush, rleToList, List.replicate_succ']
      · simp [rlePush, rleToList, if_neg hv]
    | cons cv2 rest2 =>
      simp only [rlePush, rleToList, List.map_cons, List.flatten_cons] at *
      rw [ih x]
      simp [List.append_assoc]

theorem rleWF_push : ∀ (r : List (ℕ × ℚ)) (x : ℚ), rleWF r → rleWF (rlePush r x) := by
  intro r
  induction r with
  | nil =>
    intro x _ cv hcv
    simp only [rlePush, List.mem_singleton] at hcv
    subst hcv
    exact Nat.one_pos
  | cons cv rest ih =>
    intro x hwf
    cases rest with
    | nil =>
      obtain ⟨c, v⟩ := cv
      by_cases hv : v = x
      · subst hv
        intro cv2 hcv2
        simp only [rlePush, if_pos rfl, if_true, List.mem_singleton] at hcv2
        subst hcv2
        exact Nat.succ_pos c
      · intro cv2 hcv2
        simp only [rlePush, if_neg hv, List.mem_cons, List.not_mem_nil, or_false] at hcv2
        rcases hcv2 with h | h
        · subst h
          exact hwf (c, v) (by simp)
        · subst h
          exact Nat.one_pos
    | cons cvb restb =>
      intro cv2 hcv2
      simp only [rlePush, List.mem_cons] at hcv2
      rcases hcv2 with h | h
      · exact h ▸ hwf cv (by simp)
      · exact ih x (fun cv3 hcv3 => hwf cv3 (List.mem_cons_of_mem _ hcv3)) cv2 h

theorem rleWF_tail : ∀ r : List (ℕ × ℚ), rleWF r → rleWF (rleTail r) := by
  intro r hwf
  cases r with
  | nil => exact hwf
  | cons cv rest =>
    obtain ⟨c, v⟩ := cv
    rw [rleTail]
    split
    · exact fun cv2 hcv2 => hwf cv2 (List.mem_cons_of_mem _ hcv2)
    · intro cv2 hcv2
      rcases List.mem_cons.mp hcv2 with h | h
      · subst h
        rename_i hc
        simp only
        omega
      · exact hwf cv2 (List.mem_cons_of_mem _ h)

theorem rleToList_tail : ∀ r : List (ℕ × ℚ), rleWF r →
    rleToList (rleTail r) = (rleToList r).tail := by
  intro r hwf
  cases r with
  | nil => rfl
  | cons cv rest =>
    obtain ⟨c, v⟩ := cv
    have hc : 0 < c := hwf (c, v) (by simp)
    rw [rleTail]
    split
    · rename_i hc1
      have hc2 : c = 1 := by omega
      subst hc2
      simp [rleToList, List.replicate_succ]
    · rename_i hc1
      rw [show c = (c - 1) + 1 by omega]
      simp [rleToList, List.replicate_succ]

theorem rleSum_eq : ∀ r : List (ℕ × ℚ), rleSum r = (rleToList r).sum := by
  intro r
  induction r with
  | nil => simp [rleSum, rleToList]
  | cons cv rest ih =>
    obtain ⟨c, v⟩ := cv
    simp only [rleSum, rleToList, List.map_cons, List.flatten_cons, List.sum_append,
      List.sum_replicate, nsmul_eq_mul] at *
    rw [ih]

theorem detectLoop_eq_rle (clock : ℕ → ℚ) (minC maxC : ℚ) (inside : Bool) (n : ℤ)
    (mwt : Option ℚ) (hn : 0 < n) :
    ∀ (l : List ℚ) (r : List (ℕ × ℚ)) (pos : ℕ), rleWF r →
      (rleToList r).length = n.toNat →
      detectLoop clock minC maxC inside n mwt l (rleToList r) pos =
        detectLoopRLE clock minC maxC inside n mwt l r pos := by
  intro l
  induction l with
  | nil => intro r pos _ _; rfl
  | cons x rest ih =>
    intro r pos hwf hlen
    have hn0 : n ≠ 0 := by omega
    have hpush : dequePush n.toNat (rleToList r) x = rleToList (rlePush (rleTail r) x) := by
      rw [dequePush, if_neg (by omega), if_neg (by omega), rleToList_push,
        rleToList_tail r hwf]
    have hsum : (rleToList (rlePush (rleTail r) x)).sum = rleSum (rlePush (rleTail r) x) :=
      (rleSum_eq _).symm
    simp only [detectLoop, detectLoopRLE]
    rw [hpush, hsum]
    split
    · rfl
    · split
      · rfl
      · split
        · rfl
        · apply ih
          · exact rleWF_push _ _ (rleWF_tail _ hwf)
          · rw [rleToList_push, rleToList_tail r hwf]
            simp only [List.length_append, List.length_tail, List.length_cons,
              List.length_nil]
            omega

/-- `_detect_single_ring` evaluated through the run-length-encoded window:
the zero-seeded window is the single run `(window_size, 0)`. -/
theorem detect_single_ring_rle (d : AiPhoneGT1A) (clock : ℕ → ℚ) (source : List ℚ)
    (pos : ℕ) (mw : Option ℚ)
    (hn : 0 < numConfidencesToAverage d.pitch_confidences_per_second d.ringing_seconds) :
    d.detect_single_ring clock source pos mw =
      detectLoopRLE clock d.min_ringing_confidence d.max_ringing_confidence true
        (numConfidencesToAverage d.pitch_confidences_per_second d.ringing_seconds)
        (mw.map fun m => clock pos + d.ringing_seconds * m) (source.drop pos)
        [((numConfidencesToAverage d.pitch_confidences_per_second d.ringing_seconds).toNat,
          0)] pos := by
  rw [AiPhoneGT1A.detect_single_ring, if_neg (by omega)]
  have hrl : List.replicate
      (numConfidencesToAverage d.pitch_confidences_per_second d.ringing_seconds).toNat
      (0 : ℚ) = rleToList
        [((numConfidencesToAverage d.pitch_confidences_per_second d.ringing_seconds).toNat,
          0)] := by
    simp [rleToList]
  rw [hrl]
  apply detectLoop_eq_rle _ _ _ _ _ _ hn
  · intro cv hcv
    rcases List.mem_singleton.mp hcv with h
    subst h
    simp only
    omega
  · rw [← hrl]
    simp

/-- `_detect_single_gap` evaluated through the run-length-encoded window:
the seeded window is the single run `(window_size, (min + max) / 2)`. -/
theorem detect_single_gap_rle (d : AiPhoneGT1A) (clock : ℕ → ℚ) (source : List ℚ)
    (pos : ℕ) (mw : Option ℚ)
    (hn : 0 < numConfidencesToAverage d.pitch_confidences_per_second d.gap_seconds) :
    d.detect_single_gap clock source pos mw =
      detectLoopRLE clock d.min_ringing_confidence d.max_ringing_confidence false
        (numConfidencesToAverage d.pitch_confidences_per_second d.gap_seconds)
        (mw.map fun m => clock pos + d.gap_seconds * m) (source.drop pos)
        [((numConfidencesToAverage d.pitch_confidences_per_second d.gap_seconds).toNat,
          (d.min_ringing_confidence + d.max_ringing_confidence) / 2)] pos := by
  rw [AiPhoneGT1A.detect_single_gap, if_neg (by omega)]
  have hrl : List.replicate
      (numConfidencesToAverage d.pitch_confidences_per_second d.gap_seconds).toNat
      ((d.min_ringing_confidence + d.max_ringing_confidence) / 2) = rleToList
        [((numConfidencesToAverage d.pitch_confidences_per_second d.gap_seconds).toNat,
          (d.min_ringing_confidence + d.max_ringing_confidence) / 2)] := by
    simp [rleToList]
  rw [hrl]
  apply detectLoop_eq_rle _ _ _ _ _ _ hn
  · intro cv hcv
    rcases List.mem_singleton.mp hcv with h
    subst h
    simp only
    omega
  · rw [← hrl]
    simp

/-!
### The claims
-/

/-- Claim C2: for an audio stream that is not yet depleted, a call of
`AiPhoneGT1A.is_ringing()` raises an exception instead of returning a
boolean: `Stream.iter_read` evaluates the `is_depleted` property to a
boolean and then calls that boolean as a function, and `Pitch` defines no
attribute `confidence` (only `fetch_confidence()`), so the confidence loop
never yields a single value. -/
theorem claim_C2 :
    iterConfidencesFirst false = .error .typeErrorNotCallable ∧
    pyCallNoArgs (AudioStream.is_depleted_value false) = .error .typeErrorNotCallable ∧
    pitchGetAttr "confidence" = .error .attributeErrorNoAttr ∧
    ∀ b : Bool, (is_ringing_asWritten false).1 ≠ .ok b := by
  exact ⟨rfl, rfl, by decide, by decide⟩

/-- Claim C3: across one entire run of `is_ringing` the confidence source is
never rewound and every sample is consumed at most once: the instrumented
run records one cursor interval per cycle attempt, each attempt starts
exactly at the position where the previous one stopped and stays within the
source, the indices consumed across the whole run are free of duplicates,
and the instrumentation is faithful to the plain run (same result, and at
the entry point it is `is_ringing` itself). -/
theorem claim_C3 (d : AiPhoneGT1A) (clock : ℕ → ℚ) (source : List ℚ) (fuel pos : ℕ) :
    (d.is_ringing_trace clock source fuel pos).1 =
      d.is_ringing_fuel clock source fuel pos ∧
    attemptChain source.length pos (d.is_ringing_trace clock source fuel pos).2 ∧
    (consumedIndices (d.is_ringing_trace clock source fuel pos).2).Nodup ∧
    (d.is_ringing_trace clock source source.length 0).1 = d.is_ringing clock source := by
  obtain ⟨h1, h2⟩ := is_ringing_trace_spec d clock source fuel pos
  exact ⟨h1, h2, consumedIndices_nodup _ _ _ h2,
    (is_ringing_trace_spec d clock source source.length 0).1⟩

/-- Claim C4: within a phase-loop iteration the band-membership check has
priority over the deadline check: if, after pushing the current sample, the
running mean satisfies the membership condition for the configured polarity
while the deadline has also been reached on this very iteration, the phase
returns `Matched`, not `TimedOut`. -/
theorem claim_C4 (clock : ℕ → ℚ) (minC maxC : ℚ) (inside : Bool) (n : ℤ)
    (mwt : Option ℚ) (x : ℚ) (rest dq : List ℚ) (pos : ℕ)
    (hn : n ≠ 0)
    (hmem : decide (minC ≤ (dequePush n.toNat dq x).sum / (n : ℚ) ∧
      (dequePush n.toNat dq x).sum / (n : ℚ) ≤ maxC) = inside)
    (htimeout : timeoutCheck mwt (clock (pos + 1)) = true) :
    detectLoop clock minC maxC inside n mwt (x :: rest) dq pos =
      .ok (.Matched, pos + 1) := by
  simp only [detectLoop]
  rw [if_neg hn, if_pos hmem]

/-- Concrete instantiation of the hypotheses of C4: one sample, window
capacity 1, new mean 1/2 inside the band [0, 1], and a deadline of 5 that
has already expired at the clock value 10 observed on that same sample. -/
theorem claim_C4_witness :
    detectLoop (fun _ => 10) 0 1 true 1 (some 5) [(1:ℚ)/2] [] 0 =
      .ok (.Matched, 1) :=
  claim_C4 (fun _ => 10) 0 1 true 1 (some 5) ((1:ℚ)/2) [] [] 0 (by decide) (by decide)
    (by decide)

/-- Claim C5: a phase run with no deadline (`max_wait_seconds_multiple` =
`None`, as `_is_ringing` passes for Phase 1) never reports the timed-out
outcome: a normally completed run is `Matched` or `StreamEnded`, and when it
did not match it has consumed every remaining sample of the finite source
(final cursor = source length). -/
theorem claim_C5 (d : AiPhoneGT1A) (clock : ℕ → ℚ) (source : List ℚ) (pos : ℕ)
    (o : PhaseOutcome) (p : ℕ) (hpos : pos ≤ source.length)
    (h : d.detect_single_ring clock source pos none = .ok (o, p)) :
    o ≠ .TimedOut ∧ (o ≠ .Matched → o = .StreamEnded ∧ p = source.length) := by
  rw [AiPhoneGT1A.detect_single_ring] at h
  simp only [Option.map_none'] at h
  split at h
  · exact absurd h (by simp)
  · constructor
    · intro ho
      subst ho
      exact detectLoop_none_ne_timedOut _ _ _ _ _ _ _ _ _ h
    · intro hm
      cases o with
      | Matched => exact absurd rfl hm
      | TimedOut => exact absurd h (detectLoop_none_ne_timedOut _ _ _ _ _ _ _ _ _)
      | StreamEnded =>
        refine ⟨rfl, ?_⟩
        obtain ⟨-, -, h3, -⟩ := detectLoop_bounds _ _ _ _ _ _ _ _ _ _ _ h
        have h4 := h3 rfl
        have hld : (source.drop pos).length = source.length - pos := List.length_drop _ _
        omega

/-- Concrete instantiation of C5: the default detector, no deadline, a
three-sample all-zero source whose running mean never enters the band; the
phase ends with `StreamEnded` after consuming all three samples. -/
theorem claim_C5_witness :
    PhaseOutcome.StreamEnded ≠ PhaseOutcome.TimedOut ∧
      (PhaseOutcome.StreamEnded ≠ PhaseOutcome.Matched →
        PhaseOutcome.StreamEnded = PhaseOutcome.StreamEnded ∧
          3 = ([(0 : ℚ), 0, 0]).length) :=
  claim_C5 {} clock0 [0, 0, 0] 0 .StreamEnded 3 (by decide) (by decide)

/-- Claim C9 (the code violates it): `is_ringing()` does NOT release its two
scoped resources on any exit path: both `Stream.__exit__` and
`Pitch.__exit__` are declared with only `self`, so the four-argument
`__exit__` invocation of the `with` protocol raises `TypeError` on every
path out of the method - normal exhaustion (`depleted = true`) and failure
propagation (`depleted = false`) alike - and the `close()` bodies never run:
the call ends in an exception with both resources still open. -/
theorem claim_C9 :
    ∀ depleted : Bool,
      is_ringing_asWritten depleted =
        (.error .typeErrorExitArity, { streamOpen := true, pitchOpen := true }) := by
  decide

/-- Claim C10: for every window capacity of at least 1, every seed value and
every sequence of pushed confidences, maintaining the window sum
incrementally (add the pushed value, subtract the evicted one, divide by the
capacity) produces exactly the same sequence of means as recomputing the
full window sum on every push - over exact rational arithmetic, hence in
particular within any floating-point tolerance. -/
theorem claim_C10 (n : ℕ) (seed : ℚ) (xs : List ℚ) (hn : 1 ≤ n) :
    windowMeans n seed xs = windowMeansInc n seed xs := by
  rw [windowMeans, windowMeansInc]
  have hsum : (List.replicate n seed).sum = (n : ℚ) * seed := by
    rw [List.sum_replicate, nsmul_eq_mul]
  rw [← hsum]
  exact windowMeansGo_eq_inc n (by omega) xs _ (List.length_replicate _ _)

/-- Concrete instantiation of C10: capacity 2, seed 0, pushes [1, 2, 3]. -/
theorem claim_C10_witness :
    windowMeans 2 0 [1, 2, 3] = windowMeansInc 2 0 [1, 2, 3] :=
  claim_C10 2 0 [1, 2, 3] (by decide)

/-- Claim C6 counterexample: with the default configuration
(`window_seconds = 1.8`, `samples_per_second = 86`) the code's window size is
`int(86 * 1.8) = 154`, while `round(86 * 1.8) = 155`: the number of averaged
confidences is not `round(window_seconds * samples_per_second)`. -/
theorem claim_C6_counterexample :
    numConfidencesToAverage 86 (9/5) = 154 ∧ round ((86 : ℚ) * (9/5)) = 155 ∧
      ¬ numConfidencesToAverage 86 (9/5) = round ((86 : ℚ) * (9/5)) := by
  have h1 : numConfidencesToAverage 86 (9/5) = 154 := by decide
  have h2 : round ((86 : ℚ) * (9/5)) = 155 := by
    rw [round_eq, show (86 : ℚ) * (9/5) + 1/2 = 1553/10 by norm_num, Int.floor_eq_iff]
    constructor <;> norm_num
  exact ⟨h1, h2, by rw [h1, h2]; decide⟩

/-- Claim C6 amended: for every phase the number of confidence values
averaged equals `int(window_seconds * samples_per_second)` - Python's
truncation toward zero, the floor for the nonnegative products in use - not
`round(...)`; the seeded window then always holds exactly that many
elements; and for `window_seconds = 1.8`, `samples_per_second = 86` the
window size is 154. -/
theorem claim_C6_amended :
    (∀ q : ℚ, 0 ≤ q → pyInt q = ⌊q⌋) ∧
    (∀ (n : ℕ) (dq : List ℚ) (x : ℚ), dq.length = n → (dequePush n dq x).length = n) ∧
    numConfidencesToAverage 86 (9/5) = 154 := by
  refine ⟨?_, ?_, by decide⟩
  · intro q hq
    rw [pyInt, Rat.floor_def]
    exact Int.tdiv_eq_ediv (Rat.num_nonneg.mpr hq) (Int.ofNat_nonneg _)
  · intro n dq x hlen
    rw [dequePush]
    split
    · exact hlen
    · rename_i h0
      split
      · rename_i h1
        exact absurd h1 (by omega)
      · simp only [List.length_append, List.length_tail, List.length_cons,
          List.length_nil]
        omega

/-- Concrete instantiation of the hypotheses of the amended C6: the
truncation at 154.8 and the length invariant for a full window of
capacity 2. -/
theorem claim_C6_witness :
    pyInt (774/5) = ⌊(774/5 : ℚ)⌋ ∧ (dequePush 2 [1, 2] (5 : ℚ)).length = 2 :=
  ⟨claim_C6_amended.1 (774/5) (by decide), claim_C6_amended.2.1 2 [1, 2] 5 (by decide)⟩

/-- Claim C7: the gap phase runs with Outside polarity over the same band, a
window derived from `gap_seconds` whose every initial element is the seed
`(min_ringing_confidence + max_ringing_confidence) / 2`, and a deadline of
`gap_seconds * max_wait_seconds_multiple` added to the clock at the start
position, fixed before any sample is consumed (conjunct 1: the unfolding of
`_detect_single_gap` to the shared loop exhibits all of this).  Conjuncts 2
and 3 pin the Outside polarity down behaviorally: on a consumed sample an
out-of-band mean matches immediately, while an in-band mean does not match
(without an expired deadline the loop moves on to the next sample). -/
theorem claim_C7 (d : AiPhoneGT1A) (clock : ℕ → ℚ) (source : List ℚ) (pos : ℕ)
    (m : ℚ) :
    (d.detect_single_gap clock source pos (some m) =
      (if numConfidencesToAverage d.pitch_confidences_per_second d.gap_seconds < 0 then
        .error .valueErrorNegativeMaxlen
      else
        detectLoop clock d.min_ringing_confidence d.max_ringing_confidence false
          (numConfidencesToAverage d.pitch_confidences_per_second d.gap_seconds)
          (some (clock pos + d.gap_seconds * m))
          (source.drop pos)
          (List.replicate
            (numConfidencesToAverage d.pitch_confidences_per_second d.gap_seconds).toNat
            ((d.min_ringing_confidence + d.max_ringing_confidence) / 2))
          pos)) ∧
    (∀ (n : ℤ) (mwt : Option ℚ) (x : ℚ) (rest dq : List ℚ) (p : ℕ),
      n ≠ 0 →
      ¬ (d.min_ringing_confidence ≤ (dequePush n.toNat dq x).sum / (n : ℚ) ∧
          (dequePush n.toNat dq x).sum / (n : ℚ) ≤ d.max_ringing_confidence) →
      detectLoop clock d.min_ringing_confidence d.max_ringing_confidence false n mwt
        (x :: rest) dq p = .ok (.Matched, p + 1)) ∧
    (∀ (n : ℤ) (mwt : Option ℚ) (x : ℚ) (rest dq : List ℚ) (p : ℕ),
      n ≠ 0 →
      (d.min_ringing_confidence ≤ (dequePush n.toNat dq x).sum / (n : ℚ) ∧
        (dequePush n.toNat dq x).sum / (n : ℚ) ≤ d.max_ringing_confidence) →
      timeoutCheck mwt (clock (p + 1)) = false →
      detectLoop clock d.min_ringing_confidence d.max_ringing_confidence false n mwt
        (x :: rest) dq p =
        detectLoop clock d.min_ringing_confidence d.max_ringing_confidence false n mwt
          rest (dequePush n.toNat dq x) (p + 1)) := by
  refine ⟨rfl, ?_, ?_⟩
  · intro n mwt x rest dq p hn hmem
    simp only [detectLoop]
    rw [if_neg hn, if_pos (by simp only [decide_eq_false_iff_not]; exact hmem)]
  · intro n mwt x rest dq p hn hmem htc
    simp only [detectLoop]
    rw [if_neg hn]
    rw [if_neg (by simp only [decide_eq_false_iff_not]; exact not_not_intro hmem)]
    rw [if_neg (by rw [htc]; exact Bool.false_ne_true)]

/-- Concrete instantiation of the hypotheses of C7: with window capacity 1
and the default band [0.45, 0.75], pushing 0.1 (mean 0.1, out of band)
matches the gap immediately, while pushing 0.6 (mean 0.6, in band) does not
match and the loop moves on. -/
theorem claim_C7_witness :
    detectLoop clock0 (9/20) (3/4) false 1 none [(1:ℚ)/10] [] 0 =
      .ok (.Matched, 1) ∧
    detectLoop clock0 (9/20) (3/4) false 1 none [(6:ℚ)/10] [] 0 =
      detectLoop clock0 (9/20) (3/4) false 1 none [] (dequePush 1 [] ((6:ℚ)/10)) 1 :=
  ⟨(claim_C7 {} clock0 [] 0 0).2.1 1 none ((1:ℚ)/10) [] [] 0 (by decide) (by decide),
   (claim_C7 {} clock0 [] 0 0).2.2 1 none ((6:ℚ)/10) [] [] 0 (by decide) (by decide)
     (by decide)⟩

/-- Claim C8 counterexample: bad configuration is NOT surfaced at
construction, and detection IS entered with it.  `__init__` accepts a
confidence rate of 0 (derived window size 0); the failure only appears
inside detection, as a `ZeroDivisionError` when the first consumed sample's
mean is computed.  An inverted band (`min > max`) is accepted too and is no
error at all: `is_ringing` runs the whole detection and returns `False`. -/
theorem claim_C8_counterexample :
    ({ pitch_confidences_per_second := 0 } : AiPhoneGT1A).pitch_confidences_per_second
        = 0 ∧
    numConfidencesToAverage 0 (9/5) = 0 ∧
    ({ pitch_confidences_per_second := 0 } : AiPhoneGT1A).detect_single_ring clock0
        [1/2] 0 none = .error .zeroDivisionError ∧
    ({ min_ringing_confidence := 3/4, max_ringing_confidence := 9/20 } :
        AiPhoneGT1A).is_ringing clock0 [1/2, 1/2] = .ok false :=
  ⟨rfl, by decide, by decide, by decide⟩

/-- Claim C8 amended: the constructor performs no validation, so neither a
window size rounding to 0 nor `min > max` fails at construction.  A window
size of 0 instead raises `ZeroDivisionError` during detection, on the first
consumed sample of any nonempty source; an inverted band is not an error at
all - no phase with Inside polarity can ever match, so on every source
`is_ringing` consumes the stream and returns `False`. -/
theorem claim_C8_amended :
    (∀ source : List ℚ,
      ({ min_ringing_confidence := 3/4, max_ringing_confidence := 9/20 } :
        AiPhoneGT1A).is_ringing clock0 source = .ok false) ∧
    (∀ (x : ℚ) (rest : List ℚ),
      ({ pitch_confidences_per_second := 0 } : AiPhoneGT1A).detect_single_ring clock0
        (x :: rest) 0 none = .error .zeroDivisionError) := by
  constructor
  · intro source
    rw [AiPhoneGT1A.is_ringing]
    exact is_ringing_fuel_emptyBand _ clock0 source (by decide) (by decide) _ _
  · intro x rest
    have hn : numConfidencesToAverage
        ({ pitch_confidences_per_second := 0 } : AiPhoneGT1A).pitch_confidences_per_second
        ({ pitch_confidences_per_second := 0 } : AiPhoneGT1A).ringing_seconds = 0 := by
      decide
    rw [AiPhoneGT1A.detect_single_ring, if_neg (by rw [hn]; decide), List.drop_zero]
    simp only [detectLoop]
    rw [if_pos hn]

set_option maxHeartbeats 4000000 in
/-- Claim C1 (the code violates it; the detection core upholds it): with the
default configuration, on a confidence source of 155 samples at 0.60, then
155 samples at 0.10, then 155 samples at 0.60, the detection core of
`is_ringing` returns `True` (first conjunct: the first ring matches after
sample 116, the gap after sample 202, the second ring after sample 418) -
but the program as written never reads a single confidence: `is_ringing()`
on a non-depleted stream raises a `TypeError` (the bool call inside
`Stream.iter_read`, superseded on scope exit by the `__exit__` arity error),
so the call does not return a boolean at all (second conjunct). -/
theorem claim_C1 :
    ({} : AiPhoneGT1A).is_ringing clock0 c1Source = .ok true ∧
    ∀ b : Bool, (is_ringing_asWritten false).1 ≠ .ok b := by
  constructor
  · have h1 : ({} : AiPhoneGT1A).detect_single_ring clock0 c1Source 0 none =
        .ok (.Matched, 116) :=
      (detect_single_ring_rle {} clock0 c1Source 0 none (by decide)).trans (by decide)
    have h2 : ({} : AiPhoneGT1A).detect_single_gap clock0 c1Source 116
        (some ({} : AiPhoneGT1A).max_wait_gap_multiple) = .ok (.Matched, 202) :=
      (detect_single_gap_rle {} clock0 c1Source 116
        (some ({} : AiPhoneGT1A).max_wait_gap_multiple) (by decide)).trans (by decide)
    have h3 : ({} : AiPhoneGT1A).detect_single_ring clock0 c1Source 202
        (some ({} : AiPhoneGT1A).max_wait_subsequent_ring_multiple) =
          .ok (.Matched, 418) :=
      (detect_single_ring_rle {} clock0 c1Source 202
        (some ({} : AiPhoneGT1A).max_wait_subsequent_ring_multiple)
        (by decide)).trans (by decide)
    have honce : ({} : AiPhoneGT1A).is_ringing_once clock0 c1Source 0 =
        .ok (true, 418) := by
      rw [AiPhoneGT1A.is_ringing_once, h1, exceptBind_ok]
      dsimp only
      rw [if_pos rfl, h2, exceptBind_ok]
      dsimp only
      rw [if_pos rfl, h3, exceptBind_ok]
      rfl
    have hlen : c1Source.length = 465 := by simp [c1Source]
    rw [AiPhoneGT1A.is_ringing, hlen, show (465 : ℕ) = 464 + 1 from by norm_num,
      is_ringing_fuel_step {} clock0 c1Source 464 0 (by rw [hlen]; norm_num) true 418 honce]
    rfl
  · decide

example : pyInt (774/5) = 154 := by decide

example : numConfidencesToAverage 86 (9/5) = 154 := by decide

example : dequePush 2 [1, 2] 5 = [2, 5] := by decide

example : timeoutCheck (some 0) 7 = false := by decide

example :
    detectLoop clock0 0 1 true 1 none [(1:ℚ)/2] [] 0 = .ok (.Matched, 1) := by decide

example :
    ({} : AiPhoneGT1A).detect_single_ring clock0 [0, 0, 0] 0 none =
      .ok (.StreamEnded, 3) := by decide
